import Mathlib

/-!
Shallow embedding of the `AutonomousTaskExecutor` class (the priority task
queue with retry and dependency resolution) from `FEATURES.md` of the
repository.  TypeScript `Map`s are modelled as association lists in
insertion order, `Set`s as duplicate-free lists, and the asynchronous
control loop as a labelled step relation on the executor state.
JavaScript truthiness of numeric defaults (`x || d`) is modelled exactly
(`0` counts as falsy).
-/

namespace TaskExecutor

/-- `priority: 'low' | 'medium' | 'high' | 'critical'`. -/
inductive Priority
  | low
  | medium
  | high
  | critical
deriving DecidableEq, Repr

/-- `status: 'queued' | 'running' | 'completed' | 'failed' | 'paused'`. -/
inductive TaskStatus
  | queued
  | running
  | completed
  | failed
  | paused
deriving DecidableEq, Repr

/-- The object assigned to `task.result` on completion:
`{ success: true, message: ... }`. -/
structure TaskResult where
  success : Bool
  message : String
deriving DecidableEq, Repr

/-- The `AutonomousTask` interface.  `createdAt`/`startedAt`/`completedAt`
are abstract clock readings (`Nat`). -/
structure AutonomousTask where
  id : String
  name : String
  description : String
  priority : Priority
  status : TaskStatus
  progress : Nat
  createdAt : Nat
  startedAt : Option Nat
  completedAt : Option Nat
  result : Option TaskResult
  error : Option String
  dependencies : List String
  retries : Nat
  maxRetries : Nat
deriving DecidableEq, Repr

/-- The `TaskExecutorConfig` interface. -/
structure TaskExecutorConfig where
  maxConcurrent : Nat
  retryDelay : Nat
  defaultMaxRetries : Nat
deriving DecidableEq, Repr

/-- JavaScript `v || d` for an optional number: `0` is falsy, so both an
absent value and an explicit `0` fall back to the default `d`. -/
def jsOrNat (v : Option Nat) (d : Nat) : Nat :=
  match v with
  | none => d
  | some n => if n = 0 then d else n

/-- The constructor `new AutonomousTaskExecutor(config?)`:
each field is `config?.field || default`. -/
def mkConfig (maxConcurrent retryDelay defaultMaxRetries : Option Nat) :
    TaskExecutorConfig :=
  { maxConcurrent := jsOrNat maxConcurrent 3
    retryDelay := jsOrNat retryDelay 5000
    defaultMaxRetries := jsOrNat defaultMaxRetries 3 }

/-- The mutable state of an `AutonomousTaskExecutor` instance:
`tasks: Map<string, AutonomousTask>` (association list in insertion order),
`runningTasks: Set<string>`, `taskQueue: string[]`, `isRunning`, `config`. -/
structure ExecutorState where
  tasks : List (String × AutonomousTask)
  runningTasks : List String
  taskQueue : List String
  isRunning : Bool
  config : TaskExecutorConfig
deriving DecidableEq, Repr

/-- `this.tasks.get(id)`: the first entry with the given key. -/
def getTask? : List (String × AutonomousTask) → String → Option AutonomousTask
  | [], _ => none
  | p :: rest, taskId => if p.1 = taskId then some p.2 else getTask? rest taskId

/-- In-place mutation of the task object stored under `taskId`
(JavaScript object mutation through the reference held by the map). -/
def updateTask (tasks : List (String × AutonomousTask)) (taskId : String)
    (f : AutonomousTask → AutonomousTask) : List (String × AutonomousTask) :=
  tasks.map (fun p => if p.1 = taskId then (p.1, f p.2) else p)

/-- `this.tasks.set(id, t)`: replaces in place if the key exists,
otherwise appends at the end (JavaScript `Map` insertion order). -/
def mapSet (tasks : List (String × AutonomousTask)) (taskId : String)
    (t : AutonomousTask) : List (String × AutonomousTask) :=
  if (getTask? tasks taskId).isSome then
    updateTask tasks taskId (fun _ => t)
  else
    tasks ++ [(taskId, t)]

/-- `const priorityOrder = \x7b critical: 0, high: 1, medium: 2, low: 3 \x7d`. -/
def priorityOrder : Priority → Nat
  | .critical => 0
  | .high => 1
  | .medium => 2
  | .low => 3

/-- The loop body of `queueTask`: walk the queue to the first entry whose
task maps to a STRICTLY greater `priorityOrder` value (entries whose id is
not in the map are skipped) and splice the new id in there; append at the
end when no such entry exists. -/
def insertByPriority (tasks : List (String × AutonomousTask))
    (taskPriority : Nat) (taskId : String) : List String → List String
  | [] => [taskId]
  | q :: rest =>
    match getTask? tasks q with
    | some qt =>
      if priorityOrder qt.priority > taskPriority then
        taskId :: q :: rest
      else
        q :: insertByPriority tasks taskPriority taskId rest
    | none => q :: insertByPriority tasks taskPriority taskId rest

/-- `private queueTask(taskId)`. -/
def queueTask (s : ExecutorState) (taskId : String) : ExecutorState :=
  match getTask? s.tasks taskId with
  | none => s
  | some task =>
    let q := insertByPriority s.tasks (priorityOrder task.priority) taskId
      s.taskQueue
    { s with taskQueue := q }

/-- The `options` argument of `createTask`. -/
structure CreateTaskOptions where
  priority : Option Priority
  dependencies : Option (List String)
  maxRetries : Option Nat
deriving DecidableEq, Repr

/-- `createTask(name, description, executor, options?)`.  The fresh id
produced by `generateTaskId()` is passed in as `taskId`; `now` is the
clock reading for `createdAt`.  Note `options?.maxRetries ||
this.config.defaultMaxRetries` uses JavaScript `||`, so an explicit `0`
falls back to the default; the `executor` closure is accepted by the
source but never stored on the task object. -/
def createTask (s : ExecutorState) (taskId name description : String)
    (options : CreateTaskOptions) (now : Nat) : ExecutorState :=
  let task : AutonomousTask :=
    { id := taskId
      name := name
      description := description
      priority := options.priority.getD .medium
      status := .queued
      progress := 0
      createdAt := now
      startedAt := none
      completedAt := none
      result := none
      error := none
      dependencies := options.dependencies.getD []
      retries := 0
      maxRetries := jsOrNat options.maxRetries s.config.defaultMaxRetries }
  queueTask { s with tasks := mapSet s.tasks taskId task } taskId

/-- The dependency check in `executeTask`:
`task.dependencies.every(depId => dep && dep.status === 'completed')`. -/
def depsCompleted (tasks : List (String × AutonomousTask))
    (deps : List String) : Bool :=
  deps.all (fun depId =>
    match getTask? tasks depId with
    | some dep => dep.status = .completed
    | none => false)

/-- `Set.add`: append only when absent. -/
def setAdd (l : List String) (x : String) : List String :=
  if x ∈ l then l else l ++ [x]

/-- The field writes performed on the task object when its execution
starts: `status = 'running'`, `startedAt = new Date()`, `progress = 0`. -/
def startTask (now : Nat) (t : AutonomousTask) : AutonomousTask :=
  { t with status := .running, startedAt := some now, progress := 0 }

/-- The field writes performed on the task object when the simulated
execution finishes: `status = 'completed'`, `completedAt`,
`progress = 100`, `result = \x7b success: true, ... \x7d`. -/
def finishTask (now : Nat) (t : AutonomousTask) : AutonomousTask :=
  let res : TaskResult :=
    { success := true, message := "Task " ++ t.name ++ " completed successfully" }
  { t with status := .completed, completedAt := some now, progress := 100, result := some res }

/-- The synchronous prefix of `executeTask(taskId)` (everything before the
first `await`): look the task up; if it has dependencies and not all of
them are `completed`, push the id back onto the tail of `taskQueue` and
return; otherwise add the id to `runningTasks`, set `status = 'running'`,
`startedAt = new Date()` and `progress = 0`. -/
def executeStart (s : ExecutorState) (taskId : String) (now : Nat) :
    ExecutorState :=
  match getTask? s.tasks taskId with
  | none => s
  | some task =>
    if task.dependencies ≠ [] ∧ ¬ depsCompleted s.tasks task.dependencies then
      { s with taskQueue := s.taskQueue ++ [taskId] }
    else
      { s with
        runningTasks := setAdd s.runningTasks taskId
        tasks := updateTask s.tasks taskId (startTask now) }

/-- The completion of the in-flight body of `executeTask`.  The source
never invokes the caller-supplied `executor`; the `try` block only runs
the built-in simulation, which cannot throw, so the success branch always
executes: `status = 'completed'`, `completedAt`, `progress = 100`,
`result = \x7b success: true, ... \x7d`; the `finally` block removes the
id from `runningTasks`. -/
def executeFinish (s : ExecutorState) (taskId : String) (now : Nat) :
    ExecutorState :=
  { s with
    tasks := updateTask s.tasks taskId (finishTask now)
    runningTasks := s.runningTasks.filter (fun x => x ≠ taskId) }

/-- `pauseTask(taskId)`: only a `running` task becomes `paused`. -/
def pauseTask (s : ExecutorState) (taskId : String) : ExecutorState :=
  match getTask? s.tasks taskId with
  | none => s
  | some task =>
    if task.status = .running then
      { s with tasks := updateTask s.tasks taskId (fun t => { t with status := .paused }) }
    else s

/-- `resumeTask(taskId)`: only a `paused` task becomes `queued` and is
re-inserted into the queue by priority via `queueTask`. -/
def resumeTask (s : ExecutorState) (taskId : String) : ExecutorState :=
  match getTask? s.tasks taskId with
  | none => s
  | some task =>
    if task.status = .paused then
      queueTask
        { s with tasks := updateTask s.tasks taskId (fun t => { t with status := .queued }) }
        taskId
    else s

/-- `indexOf` followed by `splice(i, 1)`: remove the first occurrence. -/
def removeFirst : List String → String → List String
  | [], _ => []
  | q :: rest, taskId =>
    if q = taskId then rest else q :: removeFirst rest taskId

/-- `cancelTask(taskId)`: whenever the id exists in the task table
(regardless of status), set `status = 'failed'`,
`error = 'Cancelled by user'`, and remove the first occurrence of the id
from `taskQueue`. -/
def cancelTask (s : ExecutorState) (taskId : String) : ExecutorState :=
  match getTask? s.tasks taskId with
  | none => s
  | some _ =>
    let cancelled : AutonomousTask → AutonomousTask := fun t =>
      { t with status := .failed, error := some "Cancelled by user" }
    { s with
      tasks := updateTask s.tasks taskId cancelled
      taskQueue := removeFirst s.taskQueue taskId }

/-- `clearCompleted()`: collect the ids of all tasks currently in
`completed` status, then delete each of them from the task table. -/
def clearCompleted (s : ExecutorState) : ExecutorState :=
  let completedIds :=
    (s.tasks.filter (fun p => p.2.status = .completed)).map Prod.fst
  let remaining :=
    completedIds.foldl (fun ts taskId => ts.filter (fun p => p.1 ≠ taskId)) s.tasks
  { s with tasks := remaining }

/-- A fresh executor: empty task table, empty running set, empty queue,
loop not yet started. -/
def initState (cfg : TaskExecutorConfig) : ExecutorState :=
  { tasks := []
    runningTasks := []
    taskQueue := []
    isRunning := false
    config := cfg }

/-- Labels for the atomic steps of the executor: the public operations,
one iteration of the `processQueue` loop that dequeues a head
(`dequeue`), and the completion of an in-flight execution (`finish`). -/
inductive Action
  | submit (taskId name description : String) (options : CreateTaskOptions)
      (now : Nat)
  | dequeue (now : Nat)
  | finish (taskId : String) (now : Nat)
  | pause (taskId : String)
  | resume (taskId : String)
  | cancel (taskId : String)
  | clear
  | startLoop
  | stopLoop

/-- The labelled step relation of the executor.  `submit` requires a fresh
id (`generateTaskId` never reuses ids); `dequeue` fires only while the
loop is running, there is spare capacity and the queue is non-empty, and
runs `executeStart` on the shifted head; `finish` fires for any id
currently in `runningTasks` (the in-flight execution completes there
whatever interleaved control operations did to the task's status). -/
inductive Step : ExecutorState → Action → ExecutorState → Prop
  | submit (s : ExecutorState) (taskId name description : String)
      (options : CreateTaskOptions) (now : Nat)
      (hfresh : getTask? s.tasks taskId = none) :
      Step s (.submit taskId name description options now)
        (createTask s taskId name description options now)
  | dequeue (s : ExecutorState) (taskId : String) (rest : List String)
      (now : Nat) (hrun : s.isRunning = true)
      (hcap : s.runningTasks.length < s.config.maxConcurrent)
      (hq : s.taskQueue = taskId :: rest) :
      Step s (.dequeue now)
        (executeStart { s with taskQueue := rest } taskId now)
  | finish (s : ExecutorState) (taskId : String) (now : Nat)
      (hmem : taskId ∈ s.runningTasks) :
      Step s (.finish taskId now) (executeFinish s taskId now)
  | pause (s : ExecutorState) (taskId : String) :
      Step s (.pause taskId) (pauseTask s taskId)
  | resume (s : ExecutorState) (taskId : String) :
      Step s (.resume taskId) (resumeTask s taskId)
  | cancel (s : ExecutorState) (taskId : String) :
      Step s (.cancel taskId) (cancelTask s taskId)
  | clear (s : ExecutorState) :
      Step s .clear (clearCompleted s)
  | startLoop (s : ExecutorState) :
      Step s .startLoop { s with isRunning := true }
  | stopLoop (s : ExecutorState) :
      Step s .stopLoop { s with isRunning := false }

/-- Some step with some label. -/
def StepAny (s s' : ExecutorState) : Prop :=
  ∃ a, Step s a s'

/-- Reachability through any number of steps. -/
def Reachable : ExecutorState → ExecutorState → Prop :=
  Relation.ReflTransGen StepAny

end TaskExecutor

namespace TaskExecutor

/-- Looking up the updated key returns the updated task. -/
theorem getTask?_updateTask_self (tasks : List (String × AutonomousTask))
    (taskId : String) (f : AutonomousTask → AutonomousTask) :
    getTask? (updateTask tasks taskId f) taskId = (getTask? tasks taskId).map f := by
  induction tasks with
  | nil => rfl
  | cons p rest ih =>
    by_cases h : p.1 = taskId
    · simp [updateTask, getTask?, h]
    · simpa [updateTask, getTask?, h] using ih

/-- Looking up a different key is unaffected by `updateTask`. -/
theorem getTask?_updateTask_ne (tasks : List (String × AutonomousTask))
    (taskId other : String) (f : AutonomousTask → AutonomousTask)
    (hne : other ≠ taskId) :
    getTask? (updateTask tasks taskId f) other = getTask? tasks other := by
  have hne2 : taskId ≠ other := fun hx => hne hx.symm
  induction tasks with
  | nil => rfl
  | cons p rest ih =>
    by_cases h : p.1 = taskId
    · simpa [updateTask, getTask?, h, hne2] using ih
    · by_cases h2 : p.1 = other
      · simp [updateTask, getTask?, h, h2, hne]
      · simpa [updateTask, getTask?, h, h2] using ih

/-- `queueTask` changes only the queue. -/
theorem queueTask_tasks (s : ExecutorState) (taskId : String) :
    (queueTask s taskId).tasks = s.tasks := by
  unfold queueTask
  cases getTask? s.tasks taskId <;> rfl

/-- `queueTask` changes neither the running set. -/
theorem queueTask_runningTasks (s : ExecutorState) (taskId : String) :
    (queueTask s taskId).runningTasks = s.runningTasks := by
  unfold queueTask
  cases getTask? s.tasks taskId <;> rfl

/-- The inserted id is always a member of the result of `insertByPriority`. -/
theorem mem_insertByPriority (tasks : List (String × AutonomousTask))
    (r : Nat) (taskId : String) (l : List String) :
    taskId ∈ insertByPriority tasks r taskId l := by
  induction l with
  | nil => simp [insertByPriority]
  | cons q rest ih =>
    unfold insertByPriority
    cases getTask? tasks q with
    | none => simp [ih]
    | some qt =>
      by_cases h : priorityOrder qt.priority > r
      · simp [h]
      · simp [h, ih]

end TaskExecutor

namespace TaskExecutor

/-- The state obtained by submitting, to a freshly constructed executor
with default configuration, a task with the explicit option
`maxRetries: 0`. -/
def stateWithZeroRetryOption : ExecutorState :=
  createTask (initState (mkConfig none none none)) "t1" "n" "d"
    { priority := none, dependencies := none, maxRetries := some 0 } 0

/-- C7: the claim says a job submitted with `maxRetries = 0` has
`maxRetries` field `0`.  The source computes
`options?.maxRetries || this.config.defaultMaxRetries`, and JavaScript
`||` treats the explicit `0` as falsy, so the field becomes the default
`3` instead of `0`. -/
theorem createTask_maxRetries_zero_becomes_default :
    (getTask? stateWithZeroRetryOption.tasks "t1").map (fun t => t.maxRetries) = some 3 ∧
    (getTask? stateWithZeroRetryOption.tasks "t1").map (fun t => t.maxRetries) ≠ some 0 := by
  constructor
  · rfl
  · decide

/-- A task record in terminal `completed` status. -/
def sampleCompletedTask : AutonomousTask :=
  { id := "t1"
    name := "n"
    description := "d"
    priority := .medium
    status := .completed
    progress := 100
    createdAt := 0
    startedAt := some 1
    completedAt := some 2
    result := none
    error := none
    dependencies := []
    retries := 0
    maxRetries := 3 }

/-- An executor state whose task table holds one `completed` task. -/
def sampleStateCompleted : ExecutorState :=
  { tasks := [("t1", sampleCompletedTask)]
    runningTasks := []
    taskQueue := []
    isRunning := false
    config := mkConfig none none none }

/-- C10: `cancelTask` checks only that the id exists in the task table,
so even a job in terminal `completed` status is set to `failed` with
error "Cancelled by user". -/
theorem cancelTask_on_completed_sets_failed (s : ExecutorState)
    (taskId : String) (t : AutonomousTask)
    (h : getTask? s.tasks taskId = some t) (hc : t.status = .completed) :
    getTask? (cancelTask s taskId).tasks taskId =
      some { t with status := .failed, error := some "Cancelled by user" } := by
  simp only [cancelTask, h]
  simp [getTask?_updateTask_self, h]

/-- Concrete instance of `cancelTask_on_completed_sets_failed`. -/
theorem cancelTask_on_completed_sets_failed_witness :
    getTask? (cancelTask sampleStateCompleted "t1").tasks "t1" =
      some { sampleCompletedTask with
              status := .failed, error := some "Cancelled by user" } :=
  cancelTask_on_completed_sets_failed sampleStateCompleted "t1"
    sampleCompletedTask (by rfl) (by rfl)

end TaskExecutor

namespace TaskExecutor

/-- `pauseTask` is a no-op when the id is absent. -/
theorem pauseTask_none (s : ExecutorState) (taskId : String)
    (h : getTask? s.tasks taskId = none) : pauseTask s taskId = s := by
  simp [pauseTask, h]

/-- `pauseTask` is a no-op when the task is not `running`. -/
theorem pauseTask_not_running (s : ExecutorState) (taskId : String)
    (t : AutonomousTask) (h : getTask? s.tasks taskId = some t)
    (hs : t.status ≠ .running) : pauseTask s taskId = s := by
  simp [pauseTask, h, hs]

/-- `pauseTask` on a `running` task only rewrites its status. -/
theorem pauseTask_running (s : ExecutorState) (taskId : String)
    (t : AutonomousTask) (h : getTask? s.tasks taskId = some t)
    (hs : t.status = .running) :
    pauseTask s taskId =
      { s with tasks := updateTask s.tasks taskId (fun u => { u with status := .paused }) } := by
  simp [pauseTask, h, hs]

/-- `resumeTask` is a no-op when the id is absent. -/
theorem resumeTask_none (s : ExecutorState) (taskId : String)
    (h : getTask? s.tasks taskId = none) : resumeTask s taskId = s := by
  simp [resumeTask, h]

/-- `resumeTask` is a no-op when the task is not `paused`. -/
theorem resumeTask_not_paused (s : ExecutorState) (taskId : String)
    (t : AutonomousTask) (h : getTask? s.tasks taskId = some t)
    (hs : t.status ≠ .paused) : resumeTask s taskId = s := by
  simp [resumeTask, h, hs]

/-- `resumeTask` on a `paused` task sets it `queued` and runs `queueTask`. -/
theorem resumeTask_paused (s : ExecutorState) (taskId : String)
    (t : AutonomousTask) (h : getTask? s.tasks taskId = some t)
    (hs : t.status = .paused) :
    resumeTask s taskId =
      queueTask
        { s with tasks := updateTask s.tasks taskId (fun u => { u with status := .queued }) }
        taskId := by
  simp [resumeTask, h, hs]

/-- The queue produced by `queueTask` when the id maps to a task. -/
theorem queueTask_taskQueue_of_some (s : ExecutorState) (taskId : String)
    (u : AutonomousTask) (h : getTask? s.tasks taskId = some u) :
    (queueTask s taskId).taskQueue =
      insertByPriority s.tasks (priorityOrder u.priority) taskId s.taskQueue := by
  simp [queueTask, h]

/-- C8: `pauseTask` and `resumeTask` are idempotent; `pauseTask` changes
state only on a `running` job (then sets `paused`), `resumeTask` only on
a `paused` job (then sets `queued` and re-inserts the id into the ready
queue by priority). -/
theorem pause_resume_idempotent (s : ExecutorState) (taskId : String) :
    pauseTask (pauseTask s taskId) taskId = pauseTask s taskId ∧
    resumeTask (resumeTask s taskId) taskId = resumeTask s taskId ∧
    (∀ t, getTask? s.tasks taskId = some t → t.status ≠ .running →
      pauseTask s taskId = s) ∧
    (∀ t, getTask? s.tasks taskId = some t → t.status ≠ .paused →
      resumeTask s taskId = s) ∧
    (∀ t, getTask? s.tasks taskId = some t → t.status = .running →
      getTask? (pauseTask s taskId).tasks taskId = some { t with status := .paused }) ∧
    (∀ t, getTask? s.tasks taskId = some t → t.status = .paused →
      getTask? (resumeTask s taskId).tasks taskId = some { t with status := .queued } ∧
      taskId ∈ (resumeTask s taskId).taskQueue) := by
  refine ⟨?_, ?_, ?_, ?_, ?_, ?_⟩
  · cases hg : getTask? s.tasks taskId with
    | none =>
      rw [pauseTask_none s taskId hg, pauseTask_none s taskId hg]
    | some t =>
      by_cases hs : t.status = .running
      · rw [pauseTask_running s taskId t hg hs]
        apply pauseTask_not_running _ taskId { t with status := .paused }
        · show getTask? (updateTask s.tasks taskId (fun u => { u with status := .paused })) taskId = _
          rw [getTask?_updateTask_self, hg]
          rfl
        · simp
      · rw [pauseTask_not_running s taskId t hg hs, pauseTask_not_running s taskId t hg hs]
  · cases hg : getTask? s.tasks taskId with
    | none =>
      rw [resumeTask_none s taskId hg, resumeTask_none s taskId hg]
    | some t =>
      by_cases hs : t.status = .paused
      · rw [resumeTask_paused s taskId t hg hs]
        apply resumeTask_not_paused _ taskId { t with status := .queued }
        · rw [queueTask_tasks]
          show getTask? (updateTask s.tasks taskId (fun u => { u with status := .queued })) taskId = _
          rw [getTask?_updateTask_self, hg]
          rfl
        · simp
      · rw [resumeTask_not_paused s taskId t hg hs, resumeTask_not_paused s taskId t hg hs]
  · exact fun t ht hs => pauseTask_not_running s taskId t ht hs
  · exact fun t ht hs => resumeTask_not_paused s taskId t ht hs
  · intro t ht hs
    rw [pauseTask_running s taskId t ht hs]
    show getTask? (updateTask s.tasks taskId (fun u => { u with status := .paused })) taskId = _
    rw [getTask?_updateTask_self, ht]
    rfl
  · intro t ht hs
    rw [resumeTask_paused s taskId t ht hs]
    have hup : getTask?
        (updateTask s.tasks taskId (fun u => { u with status := .queued })) taskId =
        some { t with status := .queued } := by
      rw [getTask?_updateTask_self, ht]
      rfl
    constructor
    · rw [queueTask_tasks]
      exact hup
    · rw [queueTask_taskQueue_of_some _ taskId { t with status := .queued } hup]
      exact mem_insertByPriority _ _ taskId _

end TaskExecutor

namespace TaskExecutor

/-- A task record in `running` status. -/
def sampleRunningTask : AutonomousTask :=
  { sampleCompletedTask with status := .running, completedAt := none, progress := 0 }

/-- A task record in `paused` status. -/
def samplePausedTask : AutonomousTask :=
  { sampleCompletedTask with status := .paused, completedAt := none, progress := 0 }

/-- An executor state with one `running` task. -/
def sampleStateRunning : ExecutorState :=
  { tasks := [("t1", sampleRunningTask)]
    runningTasks := ["t1"]
    taskQueue := []
    isRunning := true
    config := mkConfig none none none }

/-- An executor state with one `paused` task. -/
def sampleStatePaused : ExecutorState :=
  { tasks := [("t1", samplePausedTask)]
    runningTasks := []
    taskQueue := []
    isRunning := true
    config := mkConfig none none none }

/-- Concrete instance of `pause_resume_idempotent`: pausing a running task
sets `paused`; resuming a paused task sets `queued` and enqueues it. -/
theorem pause_resume_idempotent_witness :
    getTask? (pauseTask sampleStateRunning "t1").tasks "t1" =
      some { sampleRunningTask with status := .paused } ∧
    getTask? (resumeTask sampleStatePaused "t1").tasks "t1" =
      some { samplePausedTask with status := .queued } ∧
    "t1" ∈ (resumeTask sampleStatePaused "t1").taskQueue :=
  ⟨(pause_resume_idempotent sampleStateRunning "t1").2.2.2.2.1
      sampleRunningTask (by rfl) (by rfl),
   ((pause_resume_idempotent sampleStatePaused "t1").2.2.2.2.2
      samplePausedTask (by rfl) (by rfl)).1,
   ((pause_resume_idempotent sampleStatePaused "t1").2.2.2.2.2
      samplePausedTask (by rfl) (by rfl)).2⟩

/-- C5: a dequeued job with an unsatisfied dependency is not run this
cycle: the resulting state differs from the pre-dequeue state only in
that the id moved from the head to the tail of the ready queue; the
running set and every task record (in particular its status) are
untouched, so no concurrency capacity is consumed. -/
theorem unsatisfied_deps_requeue_at_tail (s : ExecutorState)
    (taskId : String) (rest : List String) (now : Nat) (t : AutonomousTask)
    (hrun : s.isRunning = true)
    (hcap : s.runningTasks.length < s.config.maxConcurrent)
    (hq : s.taskQueue = taskId :: rest)
    (h : getTask? s.tasks taskId = some t)
    (hdep : t.dependencies ≠ [])
    (hunsat : depsCompleted s.tasks t.dependencies = false) :
    Step s (.dequeue now) { s with taskQueue := rest ++ [taskId] } ∧
    (executeStart { s with taskQueue := rest } taskId now).runningTasks =
      s.runningTasks ∧
    (executeStart { s with taskQueue := rest } taskId now).tasks = s.tasks ∧
    (executeStart { s with taskQueue := rest } taskId now).taskQueue =
      rest ++ [taskId] := by
  have hexec : executeStart { s with taskQueue := rest } taskId now =
      { s with taskQueue := rest ++ [taskId] } := by
    show executeStart { s with taskQueue := rest } taskId now = _
    have hget : getTask? ({ s with taskQueue := rest } : ExecutorState).tasks taskId = some t := h
    simp [executeStart, hget, hdep, hunsat]
  refine ⟨?_, ?_, ?_, ?_⟩
  · have hstep := Step.dequeue s taskId rest now hrun hcap hq
    rwa [hexec] at hstep
  · rw [hexec]
  · rw [hexec]
  · rw [hexec]

/-- A queued task whose single dependency is still `queued`. -/
def sampleBlockedTask : AutonomousTask :=
  { sampleCompletedTask with
      status := .queued, completedAt := none, startedAt := none,
      progress := 0, id := "a", dependencies := ["b"] }

/-- A queued task with no dependencies. -/
def sampleDepTask : AutonomousTask :=
  { sampleCompletedTask with
      status := .queued, completedAt := none, startedAt := none,
      progress := 0, id := "b" }

/-- An executor state whose queue head has an unsatisfied dependency. -/
def sampleStateBlocked : ExecutorState :=
  { tasks := [("a", sampleBlockedTask), ("b", sampleDepTask)]
    runningTasks := []
    taskQueue := ["a", "b"]
    isRunning := true
    config := mkConfig none none none }

/-- Concrete instance of `unsatisfied_deps_requeue_at_tail`. -/
theorem unsatisfied_deps_requeue_at_tail_witness :
    Step sampleStateBlocked (.dequeue 5)
      { sampleStateBlocked with taskQueue := ["b", "a"] } ∧
    (executeStart { sampleStateBlocked with taskQueue := ["b"] } "a" 5).runningTasks =
      sampleStateBlocked.runningTasks ∧
    (executeStart { sampleStateBlocked with taskQueue := ["b"] } "a" 5).tasks =
      sampleStateBlocked.tasks ∧
    (executeStart { sampleStateBlocked with taskQueue := ["b"] } "a" 5).taskQueue =
      ["b", "a"] :=
  unsatisfied_deps_requeue_at_tail sampleStateBlocked "a" ["b"] 5
    sampleBlockedTask (by rfl) (by decide) (by rfl) (by rfl) (by decide) (by rfl)

end TaskExecutor

namespace TaskExecutor

/-- `queueTask` leaves the configuration unchanged. -/
theorem queueTask_config (s : ExecutorState) (taskId : String) :
    (queueTask s taskId).config = s.config := by
  unfold queueTask
  cases getTask? s.tasks taskId <;> rfl

/-- `createTask` leaves the running set unchanged. -/
theorem createTask_runningTasks (s : ExecutorState)
    (taskId name description : String) (options : CreateTaskOptions) (now : Nat) :
    (createTask s taskId name description options now).runningTasks = s.runningTasks := by
  unfold createTask
  rw [queueTask_runningTasks]

/-- `createTask` leaves the configuration unchanged. -/
theorem createTask_config (s : ExecutorState)
    (taskId name description : String) (options : CreateTaskOptions) (now : Nat) :
    (createTask s taskId name description options now).config = s.config := by
  unfold createTask
  rw [queueTask_config]

/-- `pauseTask` changes at most the task table. -/
theorem pauseTask_frame (s : ExecutorState) (taskId : String) :
    (pauseTask s taskId).runningTasks = s.runningTasks ∧
    (pauseTask s taskId).taskQueue = s.taskQueue ∧
    (pauseTask s taskId).config = s.config ∧
    (pauseTask s taskId).isRunning = s.isRunning := by
  unfold pauseTask
  cases getTask? s.tasks taskId with
  | none => exact ⟨rfl, rfl, rfl, rfl⟩
  | some t =>
    by_cases ht : t.status = .running <;> simp [ht]

/-- `resumeTask` changes at most the task table and the queue. -/
theorem resumeTask_frame (s : ExecutorState) (taskId : String) :
    (resumeTask s taskId).runningTasks = s.runningTasks ∧
    (resumeTask s taskId).config = s.config ∧
    (resumeTask s taskId).isRunning = s.isRunning := by
  unfold resumeTask
  cases getTask? s.tasks taskId with
  | none => exact ⟨rfl, rfl, rfl⟩
  | some t =>
    by_cases ht : t.status = .paused <;>
      simp [ht, queueTask_runningTasks, queueTask_config, queueTask]
    cases hg : getTask? (updateTask s.tasks taskId fun u => { u with status := TaskStatus.queued }) taskId <;> simp

/-- `cancelTask` changes at most the task table and the queue. -/
theorem cancelTask_frame (s : ExecutorState) (taskId : String) :
    (cancelTask s taskId).runningTasks = s.runningTasks ∧
    (cancelTask s taskId).config = s.config ∧
    (cancelTask s taskId).isRunning = s.isRunning := by
  unfold cancelTask
  cases getTask? s.tasks taskId with
  | none => exact ⟨rfl, rfl, rfl⟩
  | some t => exact ⟨rfl, rfl, rfl⟩

/-- `clearCompleted` changes only the task table. -/
theorem clearCompleted_frame (s : ExecutorState) :
    (clearCompleted s).runningTasks = s.runningTasks ∧
    (clearCompleted s).taskQueue = s.taskQueue ∧
    (clearCompleted s).config = s.config ∧
    (clearCompleted s).isRunning = s.isRunning :=
  ⟨rfl, rfl, rfl, rfl⟩

/-- `executeFinish` only shrinks the running set. -/
theorem executeFinish_frame (s : ExecutorState) (taskId : String) (now : Nat) :
    (executeFinish s taskId now).runningTasks =
      s.runningTasks.filter (fun x => x ≠ taskId) ∧
    (executeFinish s taskId now).taskQueue = s.taskQueue ∧
    (executeFinish s taskId now).config = s.config :=
  ⟨rfl, rfl, rfl⟩

/-- `setAdd` grows a list by at most one element. -/
theorem setAdd_length_le (l : List String) (x : String) :
    (setAdd l x).length ≤ l.length + 1 := by
  unfold setAdd
  by_cases h : x ∈ l <;> simp [h]

/-- `executeStart` leaves the configuration unchanged. -/
theorem executeStart_config (s : ExecutorState) (taskId : String) (now : Nat) :
    (executeStart s taskId now).config = s.config := by
  unfold executeStart
  split
  · rfl
  · split
    · rfl
    · rfl

/-- `executeStart` either keeps the running set or adds the single id. -/
theorem executeStart_runningTasks (s : ExecutorState) (taskId : String) (now : Nat) :
    (executeStart s taskId now).runningTasks = s.runningTasks ∨
    (executeStart s taskId now).runningTasks = setAdd s.runningTasks taskId := by
  unfold executeStart
  split
  · exact Or.inl rfl
  · split
    · exact Or.inl rfl
    · exact Or.inr rfl

/-- Every step preserves the concurrency bound
`|runningTasks| ≤ config.maxConcurrent`. -/
theorem step_preserves_capacity (s s' : ExecutorState) (a : Action)
    (hstep : Step s a s')
    (h : s.runningTasks.length ≤ s.config.maxConcurrent) :
    s'.runningTasks.length ≤ s'.config.maxConcurrent := by
  cases hstep with
  | submit taskId name description options now hfresh =>
    rw [createTask_runningTasks, createTask_config]
    exact h
  | dequeue taskId rest now hrun hcap hq =>
    rw [executeStart_config]
    rcases executeStart_runningTasks { s with taskQueue := rest } taskId now with hr | hr
    · rw [hr]
      exact h
    · rw [hr]
      calc (setAdd ({ s with taskQueue := rest } : ExecutorState).runningTasks taskId).length
          ≤ s.runningTasks.length + 1 := setAdd_length_le _ _
        _ ≤ s.config.maxConcurrent := hcap
  | finish taskId now hmem =>
    rw [(executeFinish_frame s taskId now).1, (executeFinish_frame s taskId now).2.2]
    exact le_trans (List.length_filter_le _ _) h
  | pause taskId =>
    rw [(pauseTask_frame s taskId).1, (pauseTask_frame s taskId).2.2.1]
    exact h
  | resume taskId =>
    rw [(resumeTask_frame s taskId).1, (resumeTask_frame s taskId).2.1]
    exact h
  | cancel taskId =>
    rw [(cancelTask_frame s taskId).1, (cancelTask_frame s taskId).2.1]
    exact h
  | clear =>
    rw [(clearCompleted_frame s).1, (clearCompleted_frame s).2.2.1]
    exact h
  | startLoop => exact h
  | stopLoop => exact h

/-- C2: in every state reachable from a fresh executor, the running set
holds at most `config.maxConcurrent` ids: the loop dequeues only under
spare capacity, `executeStart` adds at most the dequeued id, and every
finished execution removes its id. -/
theorem runningTasks_le_maxConcurrent (cfg : TaskExecutorConfig)
    (s : ExecutorState) (h : Reachable (initState cfg) s) :
    s.runningTasks.length ≤ s.config.maxConcurrent := by
  induction h with
  | refl => exact Nat.zero_le _
  | tail hsteps hstep ih =>
    obtain ⟨a, ha⟩ := hstep
    exact step_preserves_capacity _ _ a ha ih

/-- Concrete instance of `runningTasks_le_maxConcurrent` at the initial
state. -/
theorem runningTasks_le_maxConcurrent_witness :
    (initState (mkConfig none none none)).runningTasks.length ≤
      (initState (mkConfig none none none)).config.maxConcurrent :=
  runningTasks_le_maxConcurrent (mkConfig none none none)
    (initState (mkConfig none none none)) Relation.ReflTransGen.refl

end TaskExecutor

namespace TaskExecutor

/-- Submission options for a job whose caller-supplied body fails on
every invocation and whose retry ceiling is `maxRetries = 2`. -/
def failingOpts : CreateTaskOptions :=
  { priority := none, dependencies := none, maxRetries := some 2 }

/-- Fresh executor with default configuration. -/
def traceS0 : ExecutorState := initState (mkConfig none none none)

/-- After submitting the always-failing job. -/
def traceS1 : ExecutorState :=
  createTask traceS0 "t1" "always-fails" "body raises on every invocation"
    failingOpts 0

/-- After `start()`. -/
def traceS2 : ExecutorState := { traceS1 with isRunning := true }

/-- After the loop dequeues the job and `executeTask` starts it. -/
def traceS3 : ExecutorState := executeStart { traceS2 with taskQueue := [] } "t1" 1

/-- After the in-flight execution finishes. -/
def traceS4 : ExecutorState := executeFinish traceS3 "t1" 2

/-- The four-step trace submit, start, dequeue, finish is a run of the
executor. -/
theorem reachable_traceS4 : Reachable traceS0 traceS4 := by
  have h1 : StepAny traceS0 traceS1 :=
    ⟨_, Step.submit traceS0 "t1" "always-fails"
      "body raises on every invocation" failingOpts 0 (by decide)⟩
  have h2 : StepAny traceS1 traceS2 := ⟨_, Step.startLoop traceS1⟩
  have h3 : StepAny traceS2 traceS3 :=
    ⟨_, Step.dequeue traceS2 "t1" [] 1 (by decide) (by decide) (by decide)⟩
  have h4 : StepAny traceS3 traceS4 :=
    ⟨_, Step.finish traceS3 "t1" 2 (by decide)⟩
  exact Relation.ReflTransGen.head h1
    (Relation.ReflTransGen.head h2
      (Relation.ReflTransGen.head h3
        (Relation.ReflTransGen.head h4 Relation.ReflTransGen.refl)))

/-- C3: `executeTask` never invokes the caller-supplied `executor`
closure (`createTask` drops it; the `try` block only runs the built-in
simulation, which cannot throw).  Hence a job whose body fails on every
invocation, submitted with `maxRetries = 2`, is driven through a full
reachable execution to status `completed` with `retries = 0` — not, as
the claim states, to `failed` after `maxRetries + 1` body invocations. -/
theorem simulated_execution_completes_without_body :
    Reachable traceS0 traceS4 ∧
    (getTask? traceS4.tasks "t1").map (fun t => t.status) = some .completed ∧
    (getTask? traceS4.tasks "t1").map (fun t => t.retries) = some 0 ∧
    (getTask? traceS4.tasks "t1").map (fun t => t.maxRetries) = some 2 ∧
    ¬ (getTask? traceS4.tasks "t1").map (fun t => t.status) = some .failed :=
  ⟨reachable_traceS4, by decide, by decide, by decide, by decide⟩

end TaskExecutor

namespace TaskExecutor

/-- Appending a fresh entry does not change other lookups. -/
theorem getTask?_append_single (tasks : List (String × AutonomousTask))
    (k other : String) (v : AutonomousTask) (hne : other ≠ k) :
    getTask? (tasks ++ [(k, v)]) other = getTask? tasks other := by
  induction tasks with
  | nil => simp [getTask?, Ne.symm hne]
  | cons p rest ih =>
    by_cases hp : p.1 = other
    · simp [getTask?, hp]
    · simp [getTask?, hp, ih]

/-- `mapSet` does not change other lookups. -/
theorem getTask?_mapSet_ne (tasks : List (String × AutonomousTask))
    (k other : String) (v : AutonomousTask) (hne : other ≠ k) :
    getTask? (mapSet tasks k v) other = getTask? tasks other := by
  unfold mapSet
  by_cases h : (getTask? tasks k).isSome
  · simp [h, getTask?_updateTask_ne tasks k other _ hne]
  · simp [h, getTask?_append_single tasks k other v hne]

/-- `createTask` does not change the records of previously present ids. -/
theorem getTask?_createTask_ne (s : ExecutorState)
    (taskId name description : String) (options : CreateTaskOptions)
    (now : Nat) (other : String) (hne : other ≠ taskId) :
    getTask? (createTask s taskId name description options now).tasks other =
      getTask? s.tasks other := by
  unfold createTask
  rw [queueTask_tasks]
  exact getTask?_mapSet_ne s.tasks taskId other _ hne

/-- A key rejected by a key-determined filter is absent from the
filtered list. -/
theorem getTask?_filter_key_none (q : String → Bool)
    (tasks : List (String × AutonomousTask)) (taskId : String)
    (hq : q taskId = false) :
    getTask? (tasks.filter (fun p => q p.1)) taskId = none := by
  induction tasks with
  | nil => rfl
  | cons p rest ih =>
    by_cases hqp : q p.1
    · have hp : p.1 ≠ taskId := by
        intro hx
        rw [hx, hq] at hqp
        exact Bool.noConfusion hqp
      simp [List.filter_cons, hqp, getTask?, hp, ih]
    · simp [List.filter_cons, hqp, ih]

/-- A lookup that succeeds in a key-determined filtered list succeeds
with the same record in the original list. -/
theorem getTask?_filter_key_some (q : String → Bool)
    (tasks : List (String × AutonomousTask)) (taskId : String)
    (t : AutonomousTask)
    (h : getTask? (tasks.filter (fun p => q p.1)) taskId = some t) :
    getTask? tasks taskId = some t := by
  induction tasks with
  | nil => exact absurd h (by simp [getTask?])
  | cons p rest ih =>
    by_cases hqp : q p.1
    · have hfil : List.filter (fun pr => q pr.1) (p :: rest) =
          p :: List.filter (fun pr => q pr.1) rest :=
        List.filter_cons_of_pos hqp
      rw [hfil] at h
      by_cases hp : p.1 = taskId
      · rw [getTask?, if_pos hp] at h
        rw [getTask?, if_pos hp]
        exact h
      · rw [getTask?, if_neg hp] at h
        rw [getTask?, if_neg hp]
        exact ih h
    · have hfil : List.filter (fun pr => q pr.1) (p :: rest) =
          List.filter (fun pr => q pr.1) rest :=
        List.filter_cons_of_neg (by simpa using hqp)
      rw [hfil] at h
      by_cases hp : p.1 = taskId
      · exfalso
        have hq : q taskId = false := by
          rw [← hp]
          exact Bool.eq_false_iff.mpr hqp
        rw [getTask?_filter_key_none q rest taskId hq] at h
        exact Option.noConfusion h
      · rw [getTask?, if_neg hp]
        exact ih h

/-- A lookup that succeeds after a fold of key erasures succeeds with the
same record before it. -/
theorem getTask?_foldl_erase_some (ids : List String)
    (tasks : List (String × AutonomousTask)) (taskId : String)
    (t : AutonomousTask)
    (h : getTask?
      (ids.foldl (fun acc k => acc.filter (fun p => p.1 ≠ k)) tasks) taskId =
      some t) :
    getTask? tasks taskId = some t := by
  induction ids generalizing tasks with
  | nil => exact h
  | cons k rest ih =>
    have h2 := ih (tasks.filter (fun p => p.1 ≠ k)) h
    exact getTask?_filter_key_some (fun x => x ≠ k) tasks taskId t h2

/-- A task still present after `clearCompleted` has its record untouched. -/
theorem getTask?_clearCompleted_some (s : ExecutorState) (taskId : String)
    (t : AutonomousTask)
    (h : getTask? (clearCompleted s).tasks taskId = some t) :
    getTask? s.tasks taskId = some t :=
  getTask?_foldl_erase_some _ s.tasks taskId t h

end TaskExecutor

namespace TaskExecutor

/-- Two successful lookups of the same table entry carry equal statuses. -/
theorem same_lookup_no_change (t t' : AutonomousTask)
    (h : (some t : Option AutonomousTask) = some t') : t'.status = t.status :=
  (congrArg AutonomousTask.status (Option.some.inj h)).symm

/-- The task table produced by `executeFinish`. -/
theorem executeFinish_tasks (s : ExecutorState) (taskId : String) (now : Nat) :
    (executeFinish s taskId now).tasks = updateTask s.tasks taskId (finishTask now) :=
  rfl

/-- `executeStart` leaves every lookup unchanged, except possibly the
started id, which is mapped to `running`. -/
theorem getTask?_executeStart (s : ExecutorState) (taskId : String)
    (now : Nat) (other : String) :
    getTask? (executeStart s taskId now).tasks other = getTask? s.tasks other ∨
    (other = taskId ∧
      getTask? (executeStart s taskId now).tasks other =
        (getTask? s.tasks other).map (startTask now)) := by
  unfold executeStart
  split
  · exact Or.inl rfl
  · split
    · exact Or.inl rfl
    · by_cases hid : other = taskId
      · refine Or.inr ⟨hid, ?_⟩
        show getTask? (updateTask s.tasks taskId (startTask now)) other =
          (getTask? s.tasks other).map (startTask now)
        rw [hid, getTask?_updateTask_self]
      · exact Or.inl (getTask?_updateTask_ne s.tasks taskId other _ hid)

/-- C4 (amended): a status change caused by a single step is one of:
dequeue sets `running`; an in-flight execution's finish sets `completed`;
cancel sets `failed` (from ANY status, terminal states included); pause
sets `paused` and only from `running`; resume sets `queued` and only
from `paused`.  Terminal statuses are NOT immutable: cancel overwrites
`completed`/`failed`, and a finish overwrites whatever interim status
control operations left. -/
theorem status_transition_characterization (s s' : ExecutorState)
    (a : Action) (hstep : Step s a s') (taskId : String)
    (t t' : AutonomousTask)
    (ht : getTask? s.tasks taskId = some t)
    (ht' : getTask? s'.tasks taskId = some t')
    (hchange : t'.status ≠ t.status) :
    ((∃ now, a = .dequeue now) ∧ t'.status = .running) ∨
    ((∃ now, a = .finish taskId now) ∧ t'.status = .completed) ∨
    (a = .cancel taskId ∧ t'.status = .failed) ∨
    (a = .pause taskId ∧ t.status = .running ∧ t'.status = .paused) ∨
    (a = .resume taskId ∧ t.status = .paused ∧ t'.status = .queued) := by
  cases hstep with
  | submit tid nm ds opts now hfresh =>
    exfalso
    by_cases hid : taskId = tid
    · rw [hid] at ht
      rw [ht] at hfresh
      exact Option.noConfusion hfresh
    · rw [getTask?_createTask_ne s tid nm ds opts now taskId hid] at ht'
      exact hchange (same_lookup_no_change t t' (ht.symm.trans ht'))
  | dequeue tid rest now hrun hcap hq =>
    rcases getTask?_executeStart { s with taskQueue := rest } tid now taskId with
      hsame | ⟨hid, hmap⟩
    · exfalso
      have ht2 : getTask? ({ s with taskQueue := rest } : ExecutorState).tasks taskId = some t := ht
      rw [hsame, ht2] at ht'
      exact hchange (same_lookup_no_change t t' ht')
    · left
      refine ⟨⟨now, rfl⟩, ?_⟩
      have ht2 : getTask? ({ s with taskQueue := rest } : ExecutorState).tasks taskId = some t := ht
      rw [hmap, ht2, Option.map_some'] at ht'
      have heq := Option.some.inj ht'
      rw [← heq]
      rfl
  | finish tid now hmem =>
    rw [executeFinish_tasks] at ht'
    by_cases hid : taskId = tid
    · right; left
      refine ⟨⟨now, by rw [hid]⟩, ?_⟩
      rw [← hid, getTask?_updateTask_self, ht, Option.map_some'] at ht'
      have heq := Option.some.inj ht'
      rw [← heq]
      rfl
    · exfalso
      rw [getTask?_updateTask_ne s.tasks tid taskId _ hid] at ht'
      exact hchange (same_lookup_no_change t t' (ht.symm.trans ht'))
  | pause tid =>
    cases hg : getTask? s.tasks tid with
    | none =>
      exfalso
      rw [pauseTask_none s tid hg] at ht'
      exact hchange (same_lookup_no_change t t' (ht.symm.trans ht'))
    | some u =>
      by_cases hst : u.status = .running
      · rw [pauseTask_running s tid u hg hst] at ht'
        by_cases hid : taskId = tid
        · right; right; right; left
          rw [← hid] at hg
          rw [← hid, getTask?_updateTask_self, ht, Option.map_some'] at ht'
          have heq := Option.some.inj ht'
          have hu : u = t := Option.some.inj (hg.symm.trans ht)
          refine ⟨by rw [hid], ?_, ?_⟩
          · rw [← hu]
            exact hst
          · rw [← heq]
        · exfalso
          rw [getTask?_updateTask_ne s.tasks tid taskId _ hid] at ht'
          exact hchange (same_lookup_no_change t t' (ht.symm.trans ht'))
      · exfalso
        rw [pauseTask_not_running s tid u hg hst] at ht'
        exact hchange (same_lookup_no_change t t' (ht.symm.trans ht'))
  | resume tid =>
    cases hg : getTask? s.tasks tid with
    | none =>
      exfalso
      rw [resumeTask_none s tid hg] at ht'
      exact hchange (same_lookup_no_change t t' (ht.symm.trans ht'))
    | some u =>
      by_cases hst : u.status = .paused
      · rw [resumeTask_paused s tid u hg hst] at ht'
        rw [queueTask_tasks] at ht'
        by_cases hid : taskId = tid
        · right; right; right; right
          rw [← hid] at hg
          rw [← hid, getTask?_updateTask_self, ht, Option.map_some'] at ht'
          have heq := Option.some.inj ht'
          have hu : u = t := Option.some.inj (hg.symm.trans ht)
          refine ⟨by rw [hid], ?_, ?_⟩
          · rw [← hu]
            exact hst
          · rw [← heq]
        · exfalso
          rw [getTask?_updateTask_ne s.tasks tid taskId _ hid] at ht'
          exact hchange (same_lookup_no_change t t' (ht.symm.trans ht'))
      · exfalso
        rw [resumeTask_not_paused s tid u hg hst] at ht'
        exact hchange (same_lookup_no_change t t' (ht.symm.trans ht'))
  | cancel tid =>
    cases hg : getTask? s.tasks tid with
    | none =>
      exfalso
      rw [cancelTask, hg] at ht'
      exact hchange (same_lookup_no_change t t' (ht.symm.trans ht'))
    | some u =>
      have htasks : (cancelTask s tid).tasks =
          updateTask s.tasks tid (fun v =>
            { v with status := .failed, error := some "Cancelled by user" }) := by
        rw [cancelTask, hg]
      by_cases hid : taskId = tid
      · right; right; left
        rw [htasks, ← hid, getTask?_updateTask_self, ht, Option.map_some'] at ht'
        have heq := Option.some.inj ht'
        refine ⟨by rw [hid], ?_⟩
        rw [← heq]
      · exfalso
        rw [htasks, getTask?_updateTask_ne s.tasks tid taskId _ hid] at ht'
        exact hchange (same_lookup_no_change t t' (ht.symm.trans ht'))
  | clear =>
    exfalso
    have := getTask?_clearCompleted_some s taskId t' ht'
    exact hchange (same_lookup_no_change t t' (ht.symm.trans this))
  | startLoop =>
    exfalso
    exact hchange (same_lookup_no_change t t' (ht.symm.trans ht'))
  | stopLoop =>
    exfalso
    exact hchange (same_lookup_no_change t t' (ht.symm.trans ht'))

end TaskExecutor

namespace TaskExecutor

/-- Members of the spliced queue are the new id or old members. -/
theorem mem_insertByPriority_elim (tasks : List (String × AutonomousTask))
    (r : Nat) (taskId x : String) (l : List String)
    (h : x ∈ insertByPriority tasks r taskId l) : x = taskId ∨ x ∈ l := by
  induction l with
  | nil =>
    simp [insertByPriority] at h
    exact Or.inl h
  | cons q rest ih =>
    unfold insertByPriority at h
    split at h
    · split at h
      · rcases List.mem_cons.mp h with hx | hx
        · exact Or.inl hx
        · exact Or.inr hx
      · rcases List.mem_cons.mp h with hx | hx
        · exact Or.inr (by simp [hx])
        · rcases ih hx with hx2 | hx2
          · exact Or.inl hx2
          · exact Or.inr (List.mem_cons_of_mem q hx2)
    · rcases List.mem_cons.mp h with hx | hx
      · exact Or.inr (by simp [hx])
      · rcases ih hx with hx2 | hx2
        · exact Or.inl hx2
        · exact Or.inr (List.mem_cons_of_mem q hx2)

/-- Members of the queue after `queueTask` are the queued id or old
members. -/
theorem mem_queueTask_elim (s : ExecutorState) (taskId x : String)
    (h : x ∈ (queueTask s taskId).taskQueue) : x = taskId ∨ x ∈ s.taskQueue := by
  cases hg : getTask? s.tasks taskId with
  | none =>
    have hq : queueTask s taskId = s := by simp [queueTask, hg]
    rw [hq] at h
    exact Or.inr h
  | some u =>
    rw [queueTask_taskQueue_of_some s taskId u hg] at h
    exact mem_insertByPriority_elim s.tasks _ taskId x s.taskQueue h

/-- `removeFirst` only removes. -/
theorem mem_removeFirst_subset (l : List String) (y x : String)
    (h : x ∈ removeFirst l y) : x ∈ l := by
  induction l with
  | nil => exact absurd h (by simp [removeFirst])
  | cons q rest ih =>
    unfold removeFirst at h
    by_cases hq : q = y
    · rw [if_pos hq] at h
      exact List.mem_cons_of_mem q h
    · rw [if_neg hq] at h
      rcases List.mem_cons.mp h with hx | hx
      · simp [hx]
      · exact List.mem_cons_of_mem q (ih hx)

/-- An id occurring at most once is gone after `removeFirst`. -/
theorem not_mem_removeFirst_self (l : List String) (x : String)
    (h : l.count x ≤ 1) : x ∉ removeFirst l x := by
  induction l with
  | nil => simp [removeFirst]
  | cons q rest ih =>
    unfold removeFirst
    by_cases hq : q = x
    · rw [if_pos hq]
      rw [List.count_cons] at h
      have : rest.count x = 0 := by
        subst hq
        simp at h
        omega
      exact (List.count_eq_zero.mp this)
    · rw [if_neg hq]
      intro hmem
      rcases List.mem_cons.mp hmem with hx | hx
      · exact hq hx.symm
      · have : rest.count x ≤ 1 := by
          rw [List.count_cons] at h
          omega
        exact ih this hx

/-- The queue after `executeStart` is the old queue or the old queue with
the id pushed at the tail. -/
theorem executeStart_taskQueue (s : ExecutorState) (taskId : String) (now : Nat) :
    (executeStart s taskId now).taskQueue = s.taskQueue ∨
    (executeStart s taskId now).taskQueue = s.taskQueue ++ [taskId] := by
  unfold executeStart
  split
  · exact Or.inl rfl
  · split
    · exact Or.inr rfl
    · exact Or.inl rfl

/-- `setAdd` membership. -/
theorem mem_setAdd_elim (l : List String) (y x : String)
    (h : x ∈ setAdd l y) : x = y ∨ x ∈ l := by
  unfold setAdd at h
  by_cases hy : y ∈ l
  · rw [if_pos hy] at h
    exact Or.inr h
  · rw [if_neg hy] at h
    rcases List.mem_append.mp h with hx | hx
    · exact Or.inr hx
    · exact Or.inl (by simpa using hx)

/-- A key whose lookup fails is not among the keys. -/
theorem getTask?_none_not_mem_keys (tasks : List (String × AutonomousTask))
    (taskId : String) (h : getTask? tasks taskId = none) :
    taskId ∉ tasks.map Prod.fst := by
  induction tasks with
  | nil => simp
  | cons p rest ih =>
    rw [getTask?] at h
    by_cases hp : p.1 = taskId
    · rw [if_pos hp] at h
      exact Option.noConfusion h
    · rw [if_neg hp] at h
      simp only [List.map_cons, List.mem_cons]
      rintro (hx | hx)
      · exact hp hx.symm
      · exact ih h hx

/-- `updateTask` preserves the key sequence. -/
theorem updateTask_keys (tasks : List (String × AutonomousTask))
    (taskId : String) (f : AutonomousTask → AutonomousTask) :
    (updateTask tasks taskId f).map Prod.fst = tasks.map Prod.fst := by
  induction tasks with
  | nil => rfl
  | cons p rest ih =>
    by_cases hp : p.1 = taskId
    · simpa [updateTask, hp] using ih
    · simpa [updateTask, hp] using ih

/-- `mapSet` preserves duplicate-freedom of the keys. -/
theorem mapSet_keys_nodup (tasks : List (String × AutonomousTask))
    (taskId : String) (t : AutonomousTask)
    (h : (tasks.map Prod.fst).Nodup) :
    ((mapSet tasks taskId t).map Prod.fst).Nodup := by
  unfold mapSet
  by_cases hs : (getTask? tasks taskId).isSome
  · rw [if_pos hs, updateTask_keys]
    exact h
  · rw [if_neg hs]
    have hnone : getTask? tasks taskId = none := by
      cases hg : getTask? tasks taskId with
      | none => rfl
      | some u => rw [hg] at hs; simp at hs
    have hnm := getTask?_none_not_mem_keys tasks taskId hnone
    simpa using List.Nodup.append h (by simp) (by simpa using hnm)

/-- The erasure fold only removes entries. -/
theorem foldl_erase_sublist (ids : List String)
    (tasks : List (String × AutonomousTask)) :
    (ids.foldl (fun acc k => acc.filter (fun p => p.1 ≠ k)) tasks).Sublist tasks := by
  induction ids generalizing tasks with
  | nil => exact List.Sublist.refl tasks
  | cons k rest ih =>
    exact List.Sublist.trans (ih (tasks.filter (fun p => p.1 ≠ k)))
      (List.filter_sublist tasks)

/-- Erasing keys different from `taskId` does not change its lookup. -/
theorem getTask?_filter_other_key (tasks : List (String × AutonomousTask))
    (k taskId : String) (hne : taskId ≠ k) :
    getTask? (tasks.filter (fun p => p.1 ≠ k)) taskId = getTask? tasks taskId := by
  induction tasks with
  | nil => rfl
  | cons p rest ih =>
    by_cases hp : p.1 = k
    · have hpid : p.1 ≠ taskId := by
        rw [hp]
        exact fun hx => hne hx.symm
      have hfil : List.filter (fun pr => pr.1 ≠ k) (p :: rest) =
          List.filter (fun pr => pr.1 ≠ k) rest :=
        List.filter_cons_of_neg (by simpa using hp)
      rw [hfil, ih, getTask?, if_neg hpid]
    · have hfil : List.filter (fun pr => pr.1 ≠ k) (p :: rest) =
          p :: List.filter (fun pr => pr.1 ≠ k) rest :=
        List.filter_cons_of_pos (by simpa using hp)
      rw [hfil]
      by_cases hpid : p.1 = taskId
      · rw [getTask?, if_pos hpid, getTask?, if_pos hpid]
      · rw [getTask?, if_neg hpid, getTask?, if_neg hpid, ih]

/-- A fold of erasures of keys not containing `taskId` keeps its lookup. -/
theorem getTask?_foldl_erase_other (ids : List String)
    (tasks : List (String × AutonomousTask)) (taskId : String)
    (h : taskId ∉ ids) :
    getTask? (ids.foldl (fun acc k => acc.filter (fun p => p.1 ≠ k)) tasks) taskId =
      getTask? tasks taskId := by
  induction ids generalizing tasks with
  | nil => rfl
  | cons k rest ih =>
    have hne : taskId ≠ k := fun hx => h (by simp [hx])
    have hrest : taskId ∉ rest := fun hx => h (List.mem_cons_of_mem k hx)
    rw [List.foldl_cons, ih (tasks.filter (fun p => p.1 ≠ k)) hrest,
      getTask?_filter_other_key tasks k taskId hne]

end TaskExecutor

namespace TaskExecutor

/-- Members of the queue after `createTask` are the submitted id or old
members. -/
theorem mem_createTask_elim (s : ExecutorState)
    (taskId name description : String) (options : CreateTaskOptions)
    (now : Nat) (x : String)
    (h : x ∈ (createTask s taskId name description options now).taskQueue) :
    x = taskId ∨ x ∈ s.taskQueue := by
  unfold createTask at h
  rcases mem_queueTask_elim _ taskId x h with hx | hx
  · exact Or.inl hx
  · exact Or.inr hx

/-- `createTask` preserves duplicate-freedom of the keys. -/
theorem createTask_keys_nodup (s : ExecutorState)
    (taskId name description : String) (options : CreateTaskOptions)
    (now : Nat) (h : (s.tasks.map Prod.fst).Nodup) :
    (((createTask s taskId name description options now).tasks).map Prod.fst).Nodup := by
  unfold createTask
  rw [queueTask_tasks]
  exact mapSet_keys_nodup s.tasks taskId _ h

/-- `executeStart` preserves the key sequence. -/
theorem executeStart_keys (s : ExecutorState) (taskId : String) (now : Nat) :
    ((executeStart s taskId now).tasks).map Prod.fst = s.tasks.map Prod.fst := by
  unfold executeStart
  split
  · rfl
  · split
    · rfl
    · exact updateTask_keys s.tasks taskId _

/-- With duplicate-free keys, a table entry is what lookup returns. -/
theorem getTask?_of_mem_nodup (tasks : List (String × AutonomousTask))
    (k : String) (v : AutonomousTask) (hmem : (k, v) ∈ tasks)
    (hnd : (tasks.map Prod.fst).Nodup) : getTask? tasks k = some v := by
  induction tasks with
  | nil => exact absurd hmem (List.not_mem_nil _)
  | cons p rest ih =>
    rw [List.map_cons] at hnd
    have hnd2 := List.Nodup.of_cons hnd
    have hhead := (List.nodup_cons.mp hnd).1
    rcases List.mem_cons.mp hmem with hx | hx
    · rw [← hx, getTask?]
      simp
    · have hk : p.1 ≠ k := by
        intro hpk
        apply hhead
        rw [hpk]
        exact List.mem_map_of_mem Prod.fst hx
      rw [getTask?, if_neg hk]
      exact ih hx hnd2

/-- The effect of `cancelTask` when the id is present. -/
theorem cancelTask_some_eq (s : ExecutorState) (taskId : String)
    (u : AutonomousTask) (hg : getTask? s.tasks taskId = some u) :
    cancelTask s taskId =
      { s with
        tasks := updateTask s.tasks taskId (fun v =>
          { v with status := .failed, error := some "Cancelled by user" })
        taskQueue := removeFirst s.taskQueue taskId } := by
  simp [cancelTask, hg]

/-- The ids deleted by `clearCompleted`. -/
def completedIds (s : ExecutorState) : List String :=
  (s.tasks.filter (fun p => p.2.status = .completed)).map Prod.fst

/-- The task table after `clearCompleted`, spelled with `completedIds`. -/
theorem clearCompleted_tasks (s : ExecutorState) :
    (clearCompleted s).tasks =
      (completedIds s).foldl
        (fun acc k => acc.filter (fun p => p.1 ≠ k)) s.tasks :=
  rfl

/-- With duplicate-free keys, a non-completed task's id is not scheduled
for deletion by `clearCompleted`. -/
theorem not_mem_completedIds (s : ExecutorState) (taskId : String)
    (t : AutonomousTask) (hlook : getTask? s.tasks taskId = some t)
    (hnc : t.status ≠ .completed)
    (hnd : (s.tasks.map Prod.fst).Nodup) : taskId ∉ completedIds s := by
  intro hmem
  unfold completedIds at hmem
  rcases List.mem_map.mp hmem with ⟨p, hpmem, hpk⟩
  have hpt : p.2.status = .completed := by
    have := List.of_mem_filter hpmem
    simpa using this
  have hpin : p ∈ s.tasks := List.mem_of_mem_filter hpmem
  have : getTask? s.tasks taskId = some p.2 := by
    have := getTask?_of_mem_nodup s.tasks p.1 p.2 hpin hnd
    rw [hpk] at this
    exact this
  rw [hlook] at this
  have hpt2 := Option.some.inj this
  rw [← hpt2] at hpt
  exact hnc hpt

end TaskExecutor

namespace TaskExecutor

/-- The job is recorded as `failed` and sits in neither the ready queue
nor the running set, and the task table has duplicate-free keys. -/
def CancelledOut (s : ExecutorState) (taskId : String) : Prop :=
  (∃ t, getTask? s.tasks taskId = some t ∧ t.status = .failed) ∧
  taskId ∉ s.taskQueue ∧ taskId ∉ s.runningTasks ∧
  (s.tasks.map Prod.fst).Nodup

/-- No step revives a cancelled-out job: it stays `failed`, out of the
queue and out of the running set. -/
theorem step_preserves_cancelledOut (s s' : ExecutorState) (a : Action)
    (hstep : Step s a s') (taskId : String)
    (h : CancelledOut s taskId) : CancelledOut s' taskId := by
  obtain ⟨⟨t, hlook, hfail⟩, hq, hr, hnd⟩ := h
  cases hstep with
  | submit tid nm ds opts now hfresh =>
    have hne : taskId ≠ tid := by
      intro hx
      rw [← hx, hlook] at hfresh
      exact Option.noConfusion hfresh
    refine ⟨⟨t, ?_, hfail⟩, ?_, ?_, ?_⟩
    · rw [getTask?_createTask_ne s tid nm ds opts now taskId hne]
      exact hlook
    · intro hmem
      rcases mem_createTask_elim s tid nm ds opts now taskId hmem with hx | hx
      · exact hne hx
      · exact hq hx
    · rw [createTask_runningTasks]
      exact hr
    · exact createTask_keys_nodup s tid nm ds opts now hnd
  | dequeue tid rest now hrun hcap hq2 =>
    have hne : taskId ≠ tid := by
      intro hx
      apply hq
      rw [hq2, hx]
      exact List.mem_cons_self tid rest
    have hqrest : taskId ∉ rest := by
      intro hx
      apply hq
      rw [hq2]
      exact List.mem_cons_of_mem tid hx
    refine ⟨⟨t, ?_, hfail⟩, ?_, ?_, ?_⟩
    · rcases getTask?_executeStart { s with taskQueue := rest } tid now taskId with
        hsame | ⟨hid, _⟩
      · rw [hsame]
        exact hlook
      · exact absurd hid hne
    · rcases executeStart_taskQueue { s with taskQueue := rest } tid now with hqq | hqq
      · rw [hqq]
        exact hqrest
      · rw [hqq]
        intro hmem
        rcases List.mem_append.mp hmem with hx | hx
        · exact hqrest hx
        · exact hne (by simpa using hx)
    · rcases executeStart_runningTasks { s with taskQueue := rest } tid now with hrr | hrr
      · rw [hrr]
        exact hr
      · rw [hrr]
        intro hmem
        rcases mem_setAdd_elim s.runningTasks tid taskId hmem with hx | hx
        · exact hne hx
        · exact hr hx
    · rw [executeStart_keys]
      exact hnd
  | finish tid now hmem =>
    have hne : taskId ≠ tid := by
      intro hx
      apply hr
      rw [hx]
      exact hmem
    refine ⟨⟨t, ?_, hfail⟩, hq, ?_, ?_⟩
    · rw [executeFinish_tasks, getTask?_updateTask_ne s.tasks tid taskId _ hne]
      exact hlook
    · intro hmem2
      have : taskId ∈ s.runningTasks := List.mem_of_mem_filter hmem2
      exact hr this
    · rw [executeFinish_tasks, updateTask_keys]
      exact hnd
  | pause tid =>
    cases hg : getTask? s.tasks tid with
    | none =>
      rw [pauseTask_none s tid hg]
      exact ⟨⟨t, hlook, hfail⟩, hq, hr, hnd⟩
    | some u =>
      by_cases hst : u.status = .running
      · have hne : taskId ≠ tid := by
          intro hx
          rw [hx, hg] at hlook
          rw [Option.some.inj hlook, hfail] at hst
          exact TaskStatus.noConfusion hst
        rw [pauseTask_running s tid u hg hst]
        refine ⟨⟨t, ?_, hfail⟩, hq, hr, ?_⟩
        · rw [getTask?_updateTask_ne s.tasks tid taskId _ hne]
          exact hlook
        · rw [updateTask_keys]
          exact hnd
      · rw [pauseTask_not_running s tid u hg hst]
        exact ⟨⟨t, hlook, hfail⟩, hq, hr, hnd⟩
  | resume tid =>
    cases hg : getTask? s.tasks tid with
    | none =>
      rw [resumeTask_none s tid hg]
      exact ⟨⟨t, hlook, hfail⟩, hq, hr, hnd⟩
    | some u =>
      by_cases hst : u.status = .paused
      · have hne : taskId ≠ tid := by
          intro hx
          rw [hx, hg] at hlook
          rw [Option.some.inj hlook, hfail] at hst
          exact TaskStatus.noConfusion hst
        rw [resumeTask_paused s tid u hg hst]
        refine ⟨⟨t, ?_, hfail⟩, ?_, ?_, ?_⟩
        · rw [queueTask_tasks]
          exact (getTask?_updateTask_ne s.tasks tid taskId
            (fun v => { v with status := .queued }) hne).trans hlook
        · intro hmem
          rcases mem_queueTask_elim _ tid taskId hmem with hx | hx
          · exact hne hx
          · exact hq hx
        · rw [queueTask_runningTasks]
          exact hr
        · rw [queueTask_tasks]
          have hnd2 : ((updateTask s.tasks tid
              (fun v => { v with status := TaskStatus.queued })).map Prod.fst).Nodup := by
            rw [updateTask_keys]
            exact hnd
          exact hnd2
      · rw [resumeTask_not_paused s tid u hg hst]
        exact ⟨⟨t, hlook, hfail⟩, hq, hr, hnd⟩
  | cancel tid =>
    cases hg : getTask? s.tasks tid with
    | none =>
      have hc : cancelTask s tid = s := by simp [cancelTask, hg]
      rw [hc]
      exact ⟨⟨t, hlook, hfail⟩, hq, hr, hnd⟩
    | some u =>
      rw [cancelTask_some_eq s tid u hg]
      by_cases hid : taskId = tid
      · refine ⟨⟨{ t with status := .failed, error := some "Cancelled by user" }, ?_, rfl⟩,
          ?_, hr, ?_⟩
        · rw [← hid, getTask?_updateTask_self, hlook, Option.map_some']
        · intro hmem
          exact hq (mem_removeFirst_subset s.taskQueue tid taskId hmem)
        · rw [updateTask_keys]
          exact hnd
      · refine ⟨⟨t, ?_, hfail⟩, ?_, hr, ?_⟩
        · rw [getTask?_updateTask_ne s.tasks tid taskId _ hid]
          exact hlook
        · intro hmem
          exact hq (mem_removeFirst_subset s.taskQueue tid taskId hmem)
        · rw [updateTask_keys]
          exact hnd
  | clear =>
    have hnotin : taskId ∉ completedIds s :=
      not_mem_completedIds s taskId t hlook
        (by rw [hfail]; exact fun hx => TaskStatus.noConfusion hx) hnd
    refine ⟨⟨t, ?_, hfail⟩, hq, hr, ?_⟩
    · rw [clearCompleted_tasks, getTask?_foldl_erase_other _ s.tasks taskId hnotin]
      exact hlook
    · rw [clearCompleted_tasks]
      have hsub := foldl_erase_sublist (completedIds s) s.tasks
      exact List.Nodup.sublist (List.Sublist.map Prod.fst hsub) hnd
  | startLoop =>
    exact ⟨⟨t, hlook, hfail⟩, hq, hr, hnd⟩
  | stopLoop =>
    exact ⟨⟨t, hlook, hfail⟩, hq, hr, hnd⟩

end TaskExecutor

namespace TaskExecutor

/-- C6 (amended): `cancelTask` is effective for every id present in the
task table REGARDLESS of status (terminal states included, which is where
the original claim fails): it sets `failed`, records the error
"Cancelled by user" and removes the first queue occurrence; and once a
job not in the running set and queued at most once is cancelled, no
subsequent run of the scheduler ever re-queues it, runs it, or changes
its `failed` status. -/
theorem cancelTask_effective_any_state (s : ExecutorState) (taskId : String)
    (t : AutonomousTask) (h : getTask? s.tasks taskId = some t)
    (hnr : taskId ∉ s.runningTasks)
    (hcount : s.taskQueue.count taskId ≤ 1)
    (hnd : (s.tasks.map Prod.fst).Nodup) :
    getTask? (cancelTask s taskId).tasks taskId =
      some { t with status := .failed, error := some "Cancelled by user" } ∧
    (cancelTask s taskId).taskQueue = removeFirst s.taskQueue taskId ∧
    ∀ s2, Reachable (cancelTask s taskId) s2 →
      taskId ∉ s2.runningTasks ∧ taskId ∉ s2.taskQueue ∧
      ∀ u, getTask? s2.tasks taskId = some u → u.status = .failed := by
  have hco : CancelledOut (cancelTask s taskId) taskId := by
    rw [cancelTask_some_eq s taskId t h]
    refine ⟨⟨{ t with status := .failed, error := some "Cancelled by user" },
      ?_, rfl⟩, ?_, hnr, ?_⟩
    · rw [getTask?_updateTask_self, h, Option.map_some']
    · exact not_mem_removeFirst_self s.taskQueue taskId hcount
    · rw [updateTask_keys]
      exact hnd
  refine ⟨?_, ?_, ?_⟩
  · rw [cancelTask_some_eq s taskId t h, getTask?_updateTask_self, h,
      Option.map_some']
  · rw [cancelTask_some_eq s taskId t h]
  · intro s2 hreach
    have hco2 : CancelledOut s2 taskId := by
      induction hreach with
      | refl => exact hco
      | tail hsteps hstep ih =>
        obtain ⟨a, ha⟩ := hstep
        exact step_preserves_cancelledOut _ _ a ha taskId ih
    obtain ⟨⟨u0, hlook0, hfail0⟩, hq0, hr0, _⟩ := hco2
    refine ⟨hr0, hq0, ?_⟩
    intro u hu
    rw [hlook0] at hu
    rw [← Option.some.inj hu]
    exact hfail0

/-- A `queued` task record. -/
def sampleQueuedTask : AutonomousTask :=
  { sampleCompletedTask with
      status := .queued, completedAt := none, startedAt := none, progress := 0 }

/-- An executor state with one `queued` task sitting in the queue. -/
def sampleStateQueued : ExecutorState :=
  { tasks := [("t1", sampleQueuedTask)]
    runningTasks := []
    taskQueue := ["t1"]
    isRunning := true
    config := mkConfig none none none }

/-- Concrete instance of `cancelTask_effective_any_state`. -/
theorem cancelTask_effective_any_state_witness :
    getTask? (cancelTask sampleStateQueued "t1").tasks "t1" =
      some { sampleQueuedTask with
              status := .failed, error := some "Cancelled by user" } ∧
    (cancelTask sampleStateQueued "t1").taskQueue =
      removeFirst sampleStateQueued.taskQueue "t1" ∧
    ∀ s2, Reachable (cancelTask sampleStateQueued "t1") s2 →
      "t1" ∉ s2.runningTasks ∧ "t1" ∉ s2.taskQueue ∧
      ∀ u, getTask? s2.tasks "t1" = some u → u.status = .failed :=
  cancelTask_effective_any_state sampleStateQueued "t1" sampleQueuedTask
    (by decide) (by decide) (by decide) (by decide)

/-- C6 counterexample: `cancelTask` on a job already in the terminal
`completed` state does NOT leave the scheduler state unchanged — the job
is flipped to `failed`. -/
theorem cancel_changes_completed_task :
    (getTask? sampleStateCompleted.tasks "t1").map (fun t => t.status) =
      some .completed ∧
    cancelTask sampleStateCompleted "t1" ≠ sampleStateCompleted ∧
    (getTask? (cancelTask sampleStateCompleted "t1").tasks "t1").map
      (fun t => t.status) = some .failed :=
  ⟨by decide, by decide, by decide⟩

/-- The result object stored on the trace job at completion. -/
def traceTaskResult : TaskResult :=
  { success := true, message := "Task always-fails completed successfully" }

/-- The record of the trace job after its simulated execution finished. -/
def traceTaskDone : AutonomousTask :=
  { id := "t1"
    name := "always-fails"
    description := "body raises on every invocation"
    priority := .medium
    status := .completed
    progress := 100
    createdAt := 0
    startedAt := some 1
    completedAt := some 2
    result := some traceTaskResult
    error := none
    dependencies := []
    retries := 0
    maxRetries := 2 }

/-- The same record after a subsequent `cancelTask`. -/
def traceTaskCancelled : AutonomousTask :=
  { traceTaskDone with status := .failed, error := some "Cancelled by user" }

/-- C4 counterexample: in a reachable state the trace job has terminal
status `completed`, yet the scheduler operation `cancelTask` — a step of
the system — changes that status to `failed`. -/
theorem cancel_breaks_terminal_immutability :
    Reachable traceS0 traceS4 ∧
    getTask? traceS4.tasks "t1" = some traceTaskDone ∧
    traceTaskDone.status = .completed ∧
    Step traceS4 (.cancel "t1") (cancelTask traceS4 "t1") ∧
    (getTask? (cancelTask traceS4 "t1").tasks "t1").map (fun t => t.status) =
      some .failed :=
  ⟨reachable_traceS4, by decide, by decide, Step.cancel traceS4 "t1", by decide⟩

/-- Concrete instance of `status_transition_characterization` at the
cancel step on the completed trace job. -/
theorem status_transition_characterization_witness :
    ((∃ now, Action.cancel "t1" = Action.dequeue now) ∧
      traceTaskCancelled.status = .running) ∨
    ((∃ now, Action.cancel "t1" = Action.finish "t1" now) ∧
      traceTaskCancelled.status = .completed) ∨
    (Action.cancel "t1" = Action.cancel "t1" ∧
      traceTaskCancelled.status = .failed) ∨
    (Action.cancel "t1" = Action.pause "t1" ∧
      traceTaskDone.status = .running ∧ traceTaskCancelled.status = .paused) ∨
    (Action.cancel "t1" = Action.resume "t1" ∧
      traceTaskDone.status = .paused ∧ traceTaskCancelled.status = .queued) :=
  status_transition_characterization traceS4 (cancelTask traceS4 "t1")
    (.cancel "t1") (Step.cancel traceS4 "t1") "t1" traceTaskDone
    traceTaskCancelled (by decide) (by decide) (by decide)

end TaskExecutor

namespace TaskExecutor

/-- Erasing a list of keys one at a time is filtering on all of them. -/
theorem foldl_erase_eq_filter (ids : List String)
    (tasks : List (String × AutonomousTask)) :
    ids.foldl (fun acc k => acc.filter (fun p => p.1 ≠ k)) tasks =
      tasks.filter (fun p => p.1 ∉ ids) := by
  induction ids generalizing tasks with
  | nil => simp
  | cons k rest ih =>
    rw [List.foldl_cons, ih, List.filter_filter]
    apply List.filter_congr
    intro p hp
    by_cases h1 : p.1 = k <;> by_cases h2 : p.1 ∈ rest <;> simp [h1, h2]

/-- With duplicate-free keys, an entry's key is scheduled for deletion by
`clearCompleted` exactly when that entry is `completed`. -/
theorem mem_completedIds_iff (s : ExecutorState)
    (hnd : (s.tasks.map Prod.fst).Nodup) (p : String × AutonomousTask)
    (hp : p ∈ s.tasks) :
    p.1 ∈ completedIds s ↔ p.2.status = .completed := by
  constructor
  · intro hmem
    rcases List.mem_map.mp hmem with ⟨q, hq, hqk⟩
    have hq2 : q ∈ s.tasks := List.mem_of_mem_filter hq
    have hqc : q.2.status = .completed := by simpa using List.of_mem_filter hq
    have h1 := getTask?_of_mem_nodup s.tasks q.1 q.2 hq2 hnd
    have h2 := getTask?_of_mem_nodup s.tasks p.1 p.2 hp hnd
    rw [hqk] at h1
    rw [h1] at h2
    rw [← Option.some.inj h2]
    exact hqc
  · intro hc
    exact List.mem_map.mpr
      ⟨p, List.mem_filter.mpr ⟨hp, by simpa using hc⟩, rfl⟩

/-- C9: `clearCompleted` removes from the task table exactly the entries
whose status is `completed` at call time — the table becomes the filter
of the non-completed entries, each record untouched — and neither the
ready queue nor the running set changes. -/
theorem clearCompleted_removes_exactly_completed (s : ExecutorState)
    (hnd : (s.tasks.map Prod.fst).Nodup) :
    (clearCompleted s).tasks =
      s.tasks.filter (fun p => p.2.status ≠ .completed) ∧
    (clearCompleted s).taskQueue = s.taskQueue ∧
    (clearCompleted s).runningTasks = s.runningTasks := by
  refine ⟨?_, rfl, rfl⟩
  rw [clearCompleted_tasks, foldl_erase_eq_filter]
  apply List.filter_congr
  intro p hp
  have hiff := mem_completedIds_iff s hnd p hp
  by_cases hc : p.2.status = .completed
  · simp [hc, hiff.mpr hc]
  · have : p.1 ∉ completedIds s := fun hx => hc (hiff.mp hx)
    simp [hc, this]

/-- An executor state holding one `completed` and one `queued` task. -/
def sampleStateMixed : ExecutorState :=
  { tasks := [("t1", sampleCompletedTask), ("b", sampleDepTask)]
    runningTasks := []
    taskQueue := ["b"]
    isRunning := true
    config := mkConfig none none none }

/-- Concrete instance of `clearCompleted_removes_exactly_completed`. -/
theorem clearCompleted_removes_exactly_completed_witness :
    (clearCompleted sampleStateMixed).tasks =
      sampleStateMixed.tasks.filter (fun p => p.2.status ≠ .completed) ∧
    (clearCompleted sampleStateMixed).taskQueue = sampleStateMixed.taskQueue ∧
    (clearCompleted sampleStateMixed).runningTasks =
      sampleStateMixed.runningTasks :=
  clearCompleted_removes_exactly_completed sampleStateMixed (by decide)

end TaskExecutor

namespace TaskExecutor

/-- The priority rank of a queued id, read through the task table. -/
def rankOf (tasks : List (String × AutonomousTask)) (q : String) : Nat :=
  match getTask? tasks q with
  | some t => priorityOrder t.priority
  | none => 4

/-- The head of `dropWhile` fails the predicate. -/
theorem dropWhile_head_false {α : Type} (p : α → Bool) (l : List α)
    (b : α) (t : List α) (h : l.dropWhile p = b :: t) : p b = false := by
  induction l with
  | nil => exact absurd h (by simp)
  | cons a rest ih =>
    rw [List.dropWhile_cons] at h
    by_cases hpa : p a
    · rw [if_pos hpa] at h
      exact ih h
    · rw [if_neg hpa] at h
      have hab : a = b := (List.cons.inj h).1
      rw [← hab]
      exact Bool.eq_false_iff.mpr hpa

/-- When every queued id maps to a task, the splice of `queueTask` lands
exactly before the first entry of strictly greater rank (strictly lower
priority): the queue splits at the `takeWhile`/`dropWhile` boundary of
the predicate `rank ≤ r`. -/
theorem insertByPriority_split (tasks : List (String × AutonomousTask))
    (r : Nat) (taskId : String) (l : List String)
    (hmaps : ∀ q ∈ l, (getTask? tasks q).isSome) :
    insertByPriority tasks r taskId l =
      l.takeWhile (fun q => rankOf tasks q ≤ r) ++
        taskId :: l.dropWhile (fun q => rankOf tasks q ≤ r) := by
  induction l with
  | nil => simp [insertByPriority]
  | cons q rest ih =>
    have hq : (getTask? tasks q).isSome := hmaps q (List.mem_cons_self q rest)
    obtain ⟨qt, hqt⟩ : ∃ qt, getTask? tasks q = some qt :=
      Option.isSome_iff_exists.mp hq
    have hrank : rankOf tasks q = priorityOrder qt.priority := by
      simp [rankOf, hqt]
    have hrest : ∀ x ∈ rest, (getTask? tasks x).isSome :=
      fun x hx => hmaps x (List.mem_cons_of_mem q hx)
    by_cases hgt : priorityOrder qt.priority > r
    · have hpred : ¬ (rankOf tasks q ≤ r) := by
        rw [hrank]
        omega
      simp [insertByPriority, hqt, hgt, List.takeWhile_cons, List.dropWhile_cons, hpred]
    · have hpred : rankOf tasks q ≤ r := by
        rw [hrank]
        omega
      simp [insertByPriority, hqt, hgt, List.takeWhile_cons, List.dropWhile_cons,
        hpred, ih hrest]

/-- C1: with every queued id mapping to a task, `queueTask` inserts the
new id immediately before the first queued job of strictly greater
`priorityOrder` value (strictly lower priority) and after all jobs of
smaller or equal value, and it preserves sortedness of the queue by rank
— so a queue built by submissions alone stays sorted by rank with ties
in insertion order and is dequeued head-first in non-decreasing rank. -/
theorem queueTask_inserts_by_priority (s : ExecutorState) (taskId : String)
    (t : AutonomousTask) (ht : getTask? s.tasks taskId = some t)
    (hmaps : ∀ q ∈ s.taskQueue, (getTask? s.tasks q).isSome) :
    (queueTask s taskId).taskQueue =
      s.taskQueue.takeWhile
          (fun q => rankOf s.tasks q ≤ priorityOrder t.priority) ++
        taskId :: s.taskQueue.dropWhile
          (fun q => rankOf s.tasks q ≤ priorityOrder t.priority) ∧
    (List.Pairwise (fun a b => rankOf s.tasks a ≤ rankOf s.tasks b)
        s.taskQueue →
      List.Pairwise (fun a b => rankOf s.tasks a ≤ rankOf s.tasks b)
        (queueTask s taskId).taskQueue) := by
  have hsplit : (queueTask s taskId).taskQueue =
      s.taskQueue.takeWhile
          (fun q => rankOf s.tasks q ≤ priorityOrder t.priority) ++
        taskId :: s.taskQueue.dropWhile
          (fun q => rankOf s.tasks q ≤ priorityOrder t.priority) := by
    rw [queueTask_taskQueue_of_some s taskId t ht]
    exact insertByPriority_split s.tasks (priorityOrder t.priority) taskId
      s.taskQueue hmaps
  refine ⟨hsplit, ?_⟩
  intro hsorted
  rw [hsplit]
  set r := priorityOrder t.priority with hr
  set p : String → Bool := fun q => rankOf s.tasks q ≤ r with hp
  have hrid : rankOf s.tasks taskId = r := by
    simp [rankOf, ht, hr]
  have htake : ∀ a ∈ s.taskQueue.takeWhile p, rankOf s.tasks a ≤ r := by
    intro a ha
    have := List.mem_takeWhile_imp ha
    simpa [hp] using this
  have hdropsorted : List.Pairwise
      (fun a b => rankOf s.tasks a ≤ rankOf s.tasks b)
      (s.taskQueue.dropWhile p) :=
    List.Pairwise.sublist (List.dropWhile_sublist p) hsorted
  have hdrop : ∀ b ∈ s.taskQueue.dropWhile p, r ≤ rankOf s.tasks b := by
    intro b hb
    cases hdw : s.taskQueue.dropWhile p with
    | nil =>
      rw [hdw] at hb
      exact absurd hb (List.not_mem_nil b)
    | cons hd tl =>
      have hhd : p hd = false := dropWhile_head_false p s.taskQueue hd tl hdw
      have hhdrank : r < rankOf s.tasks hd := by
        have : ¬ (rankOf s.tasks hd ≤ r) := by
          intro hx
          rw [hp] at hhd
          simp at hhd
          omega
        omega
      rw [hdw] at hb
      rcases List.mem_cons.mp hb with hx | hx
      · rw [hx]
        omega
      · have hps : List.Pairwise
            (fun a b => rankOf s.tasks a ≤ rankOf s.tasks b) (hd :: tl) := by
          rw [← hdw]
          exact hdropsorted
        have := (List.pairwise_cons.mp hps).1 b hx
        omega
  have htakesorted : List.Pairwise
      (fun a b => rankOf s.tasks a ≤ rankOf s.tasks b)
      (s.taskQueue.takeWhile p) :=
    List.Pairwise.sublist (List.takeWhile_sublist p) hsorted
  rw [List.pairwise_append]
  refine ⟨htakesorted, ?_, ?_⟩
  · rw [List.pairwise_cons]
    refine ⟨?_, hdropsorted⟩
    intro b hb
    rw [hrid]
    exact hdrop b hb
  · intro a ha b hb
    have ha2 := htake a ha
    rcases List.mem_cons.mp hb with hx | hx
    · rw [hx, hrid]
      exact ha2
    · have := hdrop b hx
      omega

end TaskExecutor

namespace TaskExecutor

/-- A queued `critical` task. -/
def c1TaskA : AutonomousTask :=
  { sampleCompletedTask with
      id := "a", status := .queued, priority := .critical,
      completedAt := none, startedAt := none, progress := 0 }

/-- A queued `medium` task. -/
def c1TaskB : AutonomousTask :=
  { sampleCompletedTask with
      id := "b", status := .queued, priority := .medium,
      completedAt := none, startedAt := none, progress := 0 }

/-- A queued `low` task. -/
def c1TaskC : AutonomousTask :=
  { sampleCompletedTask with
      id := "c", status := .queued, priority := .low,
      completedAt := none, startedAt := none, progress := 0 }

/-- A queued `high` task about to be enqueued. -/
def c1TaskD : AutonomousTask :=
  { sampleCompletedTask with
      id := "d", status := .queued, priority := .high,
      completedAt := none, startedAt := none, progress := 0 }

/-- A queue holding a critical, a medium and a low job, with a high job
in the table waiting to be enqueued. -/
def c1State : ExecutorState :=
  { tasks := [("a", c1TaskA), ("b", c1TaskB), ("c", c1TaskC), ("d", c1TaskD)]
    runningTasks := []
    taskQueue := ["a", "b", "c"]
    isRunning := false
    config := mkConfig none none none }

/-- Concrete instance of `queueTask_inserts_by_priority`: the high job
lands after the critical job and before the medium and low jobs, and the
queue stays sorted by rank. -/
theorem queueTask_inserts_by_priority_witness :
    (queueTask c1State "d").taskQueue =
      c1State.taskQueue.takeWhile
          (fun q => rankOf c1State.tasks q ≤ priorityOrder c1TaskD.priority) ++
        "d" :: c1State.taskQueue.dropWhile
          (fun q => rankOf c1State.tasks q ≤ priorityOrder c1TaskD.priority) ∧
    List.Pairwise (fun a b => rankOf c1State.tasks a ≤ rankOf c1State.tasks b)
      (queueTask c1State "d").taskQueue :=
  ⟨(queueTask_inserts_by_priority c1State "d" c1TaskD (by decide) (by decide)).1,
   (queueTask_inserts_by_priority c1State "d" c1TaskD (by decide) (by decide)).2
     (by decide)⟩

end TaskExecutor
